import Mathlib

/-!
Verification of the librados client-core specification (spec.md) against a
shallow embedding. The repository's `src/` holds only the public C header
(`librados.h`): opaque handle typedefs (`rados_t`, `rados_config_t`,
`rados_ioctx_t`, `rados_list_ctx_t`, `rados_write_op_t`, `rados_read_op_t`,
`rados_completion_t`, `rados_callback_t`) and their documentation comments.
The implementation behind these handles is not part of `src/`, so the
behavioural model below is built from the specification's words, definition
by definition, and the claims are settled against that model.
-/

namespace RadosModel

/-- Modelled from the spec: the error taxonomy of section 7 (`NotConnected`,
`InvalidHandle`, `PoolNotFound`, `BatchAlreadyConsumed`, `AssertFailed`,
`ObjectNotFound`, `SnapshotInvalid`, `NotReady`, `TransportFailure`), plus the
success code `ok` (return code 0). The implementation behind the header is
missing from `src/`. -/
inductive ErrCode where
  | ok
  | notConnected
  | invalidHandle
  | poolNotFound
  | batchAlreadyConsumed
  | assertFailed
  | objectNotFound
  | snapshotInvalid
  | notReady
  | transportFailure
deriving DecidableEq, Repr

/-- Modelled from the spec: the state of one stored object — its byte content
and its two key/value tables: extended attributes and the object map (omap).
Bytes are modelled as `Nat` values. -/
structure ObjState where
  data : List Nat
  xattrs : List (String × List Nat)
  omap : List (String × List Nat)
deriving DecidableEq, Repr

/-- Look a key up in an association list (first matching entry wins). -/
def getAssoc {α β : Type} [DecidableEq α] : List (α × β) → α → Option β
  | [], _ => none
  | (k, v) :: t, k' => if k = k' then some v else getAssoc t k'

/-- Set a key in an association list, replacing the first matching entry or
appending a fresh one. -/
def setAssoc {α β : Type} [DecidableEq α] : List (α × β) → α → β → List (α × β)
  | [], k, v => [(k, v)]
  | (k', v') :: t, k, v =>
      if k' = k then (k, v) :: t else (k', v') :: setAssoc t k v

/-- Remove a key from an association list. -/
def rmAssoc {α β : Type} [DecidableEq α] : List (α × β) → α → List (α × β)
  | [], _ => []
  | (k', v') :: t, k => if k' = k then t else (k', v') :: rmAssoc t k

/-- Write `buf` into `data` starting at offset `ofs`, zero-padding any gap
between the current end of `data` and `ofs`. -/
def writeBytes (data : List Nat) (ofs : Nat) (buf : List Nat) : List Nat :=
  (data ++ List.replicate (ofs - data.length) 0).take ofs
    ++ buf ++ data.drop (ofs + buf.length)

/-- Modelled from the spec: the closed set of write sub-operation kinds of the
write batch (`rados_write_op_t` in the header; spec section 4.3's tagged
variant list): compare/assert steps, xattr and omap mutation, byte IO, object
creation/removal and the allocation hint. -/
inductive WriteSubOp where
  | cmpXattr (name : String) (val : List Nat)
  | setXattr (name : String) (val : List Nat)
  | rmXattr (name : String)
  | omapCmp (key : String) (val : List Nat)
  | omapSet (kvs : List (String × List Nat))
  | omapRmKeys (keys : List String)
  | omapClear
  | write (ofs : Nat) (buf : List Nat)
  | writeFull (buf : List Nat)
  | append (buf : List Nat)
  | truncate (len : Nat)
  | zero (ofs len : Nat)
  | remove
  | create
  | assertExists
  | setAllocHint (expectedObjectSize expectedWriteSize : Nat)
deriving DecidableEq, Repr

/-- The empty object used when a mutating sub-op implicitly creates its
target. -/
def emptyObj : ObjState := ⟨[], [], []⟩

/-- The object `st` if it exists, else a freshly created empty object
(mutating RADOS write sub-ops create their target implicitly). -/
def ensureObj (st : Option ObjState) : ObjState := st.getD emptyObj

/-- Modelled from the spec: the effect of one write sub-operation on the
(possibly absent) target object. Compare/assert steps fail with
`AssertFailed` or `ObjectNotFound` and leave the object unchanged; mutating
steps rewrite the object. The implementation is missing from `src/`; the
semantics follows spec sections 4.3 and 7. -/
def applyWriteSubOp (op : WriteSubOp) (st : Option ObjState) :
    Except ErrCode (Option ObjState) :=
  match op with
  | .cmpXattr name val =>
      match st with
      | none => .error .objectNotFound
      | some o =>
          if getAssoc o.xattrs name = some val then .ok st
          else .error .assertFailed
  | .setXattr name val =>
      let o := ensureObj st
      .ok (some { o with xattrs := setAssoc o.xattrs name val })
  | .rmXattr name =>
      match st with
      | none => .error .objectNotFound
      | some o => .ok (some { o with xattrs := rmAssoc o.xattrs name })
  | .omapCmp key val =>
      match st with
      | none => .error .objectNotFound
      | some o =>
          if getAssoc o.omap key = some val then .ok st
          else .error .assertFailed
  | .omapSet kvs =>
      let o := ensureObj st
      .ok (some { o with omap := kvs.foldl (fun m kv => setAssoc m kv.1 kv.2) o.omap })
  | .omapRmKeys keys =>
      match st with
      | none => .error .objectNotFound
      | some o => .ok (some { o with omap := keys.foldl rmAssoc o.omap })
  | .omapClear =>
      match st with
      | none => .error .objectNotFound
      | some o => .ok (some { o with omap := [] })
  | .write ofs buf =>
      let o := ensureObj st
      .ok (some { o with data := writeBytes o.data ofs buf })
  | .writeFull buf =>
      let o := ensureObj st
      .ok (some { o with data := buf })
  | .append buf =>
      let o := ensureObj st
      .ok (some { o with data := o.data ++ buf })
  | .truncate len =>
      let o := ensureObj st
      .ok (some { o with data :=
        if len ≤ o.data.length then o.data.take len
        else o.data ++ List.replicate (len - o.data.length) 0 })
  | .zero ofs len =>
      match st with
      | none => .error .objectNotFound
      | some o =>
          let zs := List.replicate (min len (o.data.length - ofs)) 0
          .ok (some { o with data := writeBytes o.data ofs zs })
  | .remove =>
      match st with
      | none => .error .objectNotFound
      | some _ => .ok none
  | .create =>
      .ok (some (ensureObj st))
  | .assertExists =>
      match st with
      | none => .error .objectNotFound
      | some _ => .ok st
  | .setAllocHint _ _ =>
      .ok st

/-- Modelled from the spec: the output buffer of one sub-operation — nothing,
raw bytes, a list of key/value entries, or stat information. -/
inductive OutBuf where
  | empty
  | bytes (bs : List Nat)
  | entries (es : List (String × List Nat))
  | statInfo (size : Nat)
deriving DecidableEq, Repr

/-- Modelled from the spec: the per-sub-operation result slot — whether the
step was actually executed, its own return code, and its own output buffer
(spec section 4.3: "each record carries ... after execution, its own per-step
result code and output buffer"). Write steps produce no output bytes. -/
structure StepResult where
  executed : Bool
  rval : ErrCode
  outBuf : OutBuf
deriving DecidableEq, Repr

/-- The result slot of a sub-operation that the batch aborted before
reaching: not executed, no code, no output. -/
def notExecuted : StepResult := ⟨false, .ok, .empty⟩

/-- The result slot of an executed, succeeded write step. -/
def okStep : StepResult := ⟨true, .ok, .empty⟩

/-- Modelled from the spec: sequential execution of a write batch's sub-ops
over a tentative object state. Returns the per-step result slots, the overall
code actually hit during execution, and the tentative final state. On the
first failing step execution stops: later steps are marked `notExecuted`. -/
def execWriteAux : List WriteSubOp → Option ObjState →
    List StepResult × ErrCode × Option ObjState
  | [], st => ([], .ok, st)
  | op :: rest, st =>
      match applyWriteSubOp op st with
      | .ok st' =>
          let r := execWriteAux rest st'
          (okStep :: r.1, r.2.1, r.2.2)
      | .error e =>
          (⟨true, e, .empty⟩ :: rest.map (fun _ => notExecuted), e, st)

/-- The outcome of executing a whole batch against one object. -/
structure WriteExecResult where
  steps : List StepResult
  overall : ErrCode
  finalState : Option ObjState
deriving DecidableEq, Repr

/-- Modelled from the spec: atomic execution of a write batch (spec section
4.3's central guarantee). The sub-ops run in order against a tentative state;
if every step succeeds the tentative state is committed, otherwise the whole
batch aborts and the target object is left exactly as it was. -/
def execWriteBatch (ops : List WriteSubOp) (st : Option ObjState) :
    WriteExecResult :=
  let r := execWriteAux ops st
  if r.2.1 = .ok then ⟨r.1, r.2.1, r.2.2⟩ else ⟨r.1, r.2.1, st⟩

/-- Modelled from the spec: "overall = first non-zero per-step code, or zero
if all succeeded" (spec section 4.3), written exactly as those words. -/
def firstNonZero : List ErrCode → ErrCode
  | [] => .ok
  | c :: cs => if c = .ok then firstNonZero cs else c

/-- Modelled from the spec: the closed set of read sub-operation kinds of the
read batch (`rados_read_op_t` in the header): compare/assert steps, xattr and
omap retrieval, stat, assert-exists and byte reads. -/
inductive ReadSubOp where
  | cmpXattr (name : String) (val : List Nat)
  | getXattr (name : String)
  | getXattrs
  | omapCmp (key : String) (val : List Nat)
  | omapGetVals
  | omapGetKeys
  | omapGetValsByKeys (keys : List String)
  | stat
  | assertExists
  | read (ofs len : Nat)
deriving DecidableEq, Repr

/-- Modelled from the spec: the outcome of one read sub-operation evaluated
against one fixed object state (read sub-ops never mutate the object).
Compare/assert mismatches fail with `AssertFailed`; reads of an absent object
or attribute fail with `ObjectNotFound`. The implementation is missing from
`src/`; the semantics follows spec sections 4.3 and 7. -/
def applyReadSubOp (op : ReadSubOp) (st : Option ObjState) :
    Except ErrCode OutBuf :=
  match st with
  | none => .error .objectNotFound
  | some o =>
      match op with
      | .cmpXattr name val =>
          if getAssoc o.xattrs name = some val then .ok .empty
          else .error .assertFailed
      | .getXattr name =>
          match getAssoc o.xattrs name with
          | some v => .ok (.bytes v)
          | none => .error .objectNotFound
      | .getXattrs => .ok (.entries o.xattrs)
      | .omapCmp key val =>
          if getAssoc o.omap key = some val then .ok .empty
          else .error .assertFailed
      | .omapGetVals => .ok (.entries o.omap)
      | .omapGetKeys => .ok (.entries (o.omap.map (fun kv => (kv.1, []))))
      | .omapGetValsByKeys keys =>
          .ok (.entries (keys.filterMap (fun k =>
            (getAssoc o.omap k).map (fun v => (k, v)))))
      | .stat => .ok (.statInfo o.data.length)
      | .assertExists => .ok .empty
      | .read ofs len => .ok (.bytes ((o.data.drop ofs).take len))

/-- The result slot an executed read sub-op records against snapshot `st`. -/
def readStep (op : ReadSubOp) (st : Option ObjState) : StepResult :=
  match applyReadSubOp op st with
  | .ok out => ⟨true, .ok, out⟩
  | .error e => ⟨true, e, .empty⟩

/-- Modelled from the spec: execution of a read batch. Every sub-operation is
evaluated against the same point-in-time object state `st` (the snapshot); on
the first failing assert/compare step the batch aborts and the remaining
sub-ops are not executed (spec section 4.3). Returns the per-step result
slots and the overall code. -/
def execReadBatch : List ReadSubOp → Option ObjState →
    List StepResult × ErrCode
  | [], _ => ([], .ok)
  | op :: rest, st =>
      match applyReadSubOp op st with
      | .ok out =>
          let r := execReadBatch rest st
          (⟨true, .ok, out⟩ :: r.1, r.2)
      | .error e =>
          (⟨true, e, .empty⟩ :: rest.map (fun _ => notExecuted), e)

/-- Modelled from the spec: the lifecycle states of an operation batch (spec
section 4.3): `Empty → Building (≥1 sub-op added) → Executed → Released`. -/
inductive BatchState where
  | empty
  | building
  | executed
  | released
deriving DecidableEq, Repr

/-- Modelled from the spec: a write batch handle (`rados_write_op_t`): its
lifecycle state, the ordered sub-op records added so far, and — once executed
— the per-step result slots and overall code. -/
structure WriteOp where
  bstate : BatchState
  subOps : List WriteSubOp
  steps : List StepResult
  overall : ErrCode
deriving DecidableEq, Repr

/-- Modelled from the spec: `rados_create_write_op` — a batch is created
empty. -/
def createWriteOp : WriteOp := ⟨.empty, [], [], .ok⟩

/-- Modelled from the spec: an add-sub-operation call. It appends a sub-op
record and is valid only in `Building`/`Empty`; after the batch has been
consumed it fails with the `BatchAlreadyConsumed` error. -/
def writeOpAdd (w : WriteOp) (op : WriteSubOp) : Except ErrCode WriteOp :=
  match w.bstate with
  | .empty | .building =>
      .ok { w with bstate := .building, subOps := w.subOps ++ [op] }
  | .executed | .released => .error .batchAlreadyConsumed

/-- Modelled from the spec: `rados_write_op_operate` — executing the batch
atomically against the target object, consuming the batch (state becomes
`Executed`). Executing an already-consumed batch fails with
`BatchAlreadyConsumed`. -/
def writeOpOperate (w : WriteOp) (st : Option ObjState) :
    Except ErrCode (WriteOp × Option ObjState) :=
  match w.bstate with
  | .empty | .building =>
      let r := execWriteBatch w.subOps st
      .ok (⟨.executed, w.subOps, r.steps, r.overall⟩, r.finalState)
  | .executed | .released => .error .batchAlreadyConsumed

/-- Modelled from the spec: the two milestones of an asynchronous operation
(`rados_completion_t` in the header; spec section 4.4): *acknowledged* and
*complete*. -/
inductive Milestone where
  | ack
  | complete
deriving DecidableEq, Repr

/-- Modelled from the spec: the per-milestone state inside a completion — a
boolean "reached" flag, a return code (valid only once reached), and an
optional registered callback (spec section 3, Completion). Callbacks are
identified by a number. -/
structure MilState where
  reached : Bool
  code : Int
  cb : Option Nat
deriving DecidableEq, Repr

/-- A milestone's state at completion creation: not reached, no callback. -/
def initMilState : MilState := ⟨false, 0, none⟩

/-- Modelled from the spec: a completion (`rados_completion_t`) — the states
of its two independent milestones. -/
structure Completion where
  ackState : MilState
  completeState : MilState
deriving DecidableEq, Repr

/-- A freshly created completion. -/
def newCompletion : Completion := ⟨initMilState, initMilState⟩

/-- The state of one milestone of a completion. -/
def mstate (c : Completion) : Milestone → MilState
  | .ack => c.ackState
  | .complete => c.completeState

/-- Replace the state of one milestone of a completion. -/
def setMState (c : Completion) : Milestone → MilState → Completion
  | .ack, s => ⟨s, c.completeState⟩
  | .complete, s => ⟨c.ackState, s⟩

/-- Modelled from the spec: one engine event against a completion — the
transport reports a milestone with its return code (`arrive`), or the caller
registers/deregisters a callback for a milestone (`setCb`; `none`
deregisters). -/
inductive EngineEvent where
  | arrive (m : Milestone) (code : Int)
  | setCb (m : Milestone) (f : Option Nat)
deriving DecidableEq, Repr

/-- The milestone an engine event addresses. -/
def eventMilestone : EngineEvent → Milestone
  | .arrive m _ => m
  | .setCb m _ => m

/-- An engine event with its milestone tag dropped. -/
inductive MilAction where
  | arrive (code : Int)
  | setCb (f : Option Nat)
deriving DecidableEq, Repr

/-- Drop the milestone tag of an engine event. -/
def toMilAction : EngineEvent → MilAction
  | .arrive _ code => .arrive code
  | .setCb _ f => .setCb f

def MilAction.isArrive : MilAction → Bool
  | .arrive _ => true
  | .setCb _ => false

def MilAction.isSetCb : MilAction → Bool
  | .arrive _ => false
  | .setCb _ => true

/-- Modelled from the spec: the direct state change of one action on one
milestone. A milestone arrival sets the reached flag and freezes the final
return code (a second arrival for an already-reached milestone changes
nothing); `setCb` installs the given callback, `none` deregistering any
previously set one. -/
def applyMilAction (s : MilState) : MilAction → MilState
  | .arrive code => if s.reached then s else ⟨true, code, s.cb⟩
  | .setCb f => ⟨s.reached, s.code, f⟩

/-- Modelled from the spec: the dispatch step of the completion engine for
one milestone — once the milestone is reached and a callback is registered,
the callback is invoked (recorded in the returned list) and consumed, so it
cannot fire a second time. -/
def dispatchMil (s : MilState) : MilState × List Nat :=
  match s.reached, s.cb with
  | true, some f => (⟨true, s.code, none⟩, [f])
  | true, none => (s, [])
  | false, _ => (s, [])

/-- One engine step on one milestone: apply the action, then dispatch. -/
def stepMil (s : MilState) (a : MilAction) : MilState × List Nat :=
  dispatchMil (applyMilAction s a)

/-- Run a sequence of actions on one milestone, collecting the callback
invocations in order. -/
def runMil (s : MilState) : List MilAction → MilState × List Nat
  | [] => (s, [])
  | a :: as =>
      let r := stepMil s a
      let r' := runMil r.1 as
      (r'.1, r.2 ++ r'.2)

/-- One engine step on a whole completion: the event is routed to the
milestone it addresses; invocations are tagged with that milestone. -/
def stepCompletion (c : Completion) (e : EngineEvent) :
    Completion × List (Milestone × Nat) :=
  let m := eventMilestone e
  let r := stepMil (mstate c m) (toMilAction e)
  (setMState c m r.1, r.2.map (fun f => (m, f)))

/-- Run a sequence of engine events on a completion, collecting all callback
invocations (tagged with their milestone) in order. -/
def runCompletion (c : Completion) :
    List EngineEvent → Completion × List (Milestone × Nat)
  | [] => (c, [])
  | e :: es =>
      let r := stepCompletion c e
      let r' := runCompletion r.1 es
      (r'.1, r.2 ++ r'.2)

/-- The invocations of one milestone's callbacks within a tagged log. -/
def logFor (m : Milestone) (log : List (Milestone × Nat)) : List Nat :=
  log.filterMap (fun p => if p.1 = m then some p.2 else none)

/-- The actions a single milestone sees out of an event sequence. -/
def projEvents (m : Milestone) (es : List EngineEvent) : List MilAction :=
  es.filterMap (fun e =>
    if eventMilestone e = m then some (toMilAction e) else none)

/-- Modelled from the spec: `getReturnValue(completion)` — valid only once
the relevant milestone is reached, else it fails with the `NotReady` error
(spec section 4.4). -/
def getReturnValue (c : Completion) (m : Milestone) : Except ErrCode Int :=
  if (mstate c m).reached then .ok (mstate c m).code else .error .notReady

/-- No event of the sequence registers or deregisters a callback for
milestone `m`. -/
def noSetCbFor (m : Milestone) (es : List EngineEvent) : Bool :=
  es.all (fun e => match e with
    | .setCb m' _ => decide (m' ≠ m)
    | .arrive _ _ => true)

/-- Some event of the sequence reports milestone `m` as reached. -/
def arriveFor (m : Milestone) (es : List EngineEvent) : Bool :=
  es.any (fun e => match e with
    | .arrive m' _ => decide (m' = m)
    | .setCb _ _ => false)

/-- Modelled from the spec: a cluster handle (`rados_t`): connection state
and liveness (live until shut down or released). -/
structure ClusterState where
  connected : Bool
  live : Bool
deriving DecidableEq, Repr

/-- Modelled from the spec: a pool context (`rados_ioctx_t`): the immutable
pool name, the mutable locator key, namespace and read-snapshot id, and
whether this context is still open. -/
structure PoolCtx where
  poolName : String
  locatorKey : String
  nspace : String
  readSnap : Nat
  isOpen : Bool
deriving DecidableEq, Repr

/-- Modelled from the spec: the ownership tree rooted at one cluster handle
(spec sections 3 and 4.1): the handle, its descendant pool contexts, and its
outstanding completions. -/
structure ClusterSys where
  handle : ClusterState
  pools : List PoolCtx
  completions : List Completion
deriving DecidableEq, Repr

/-- Modelled from the spec: `shutdown(Handle)` — invalidates the handle; all
descendant pool contexts and outstanding completions become invalid with it,
because their validity requires a live owning handle. -/
def shutdown (s : ClusterSys) : ClusterSys :=
  { s with handle := ⟨s.handle.connected, false⟩ }

/-- Modelled from the spec: releasing the cluster handle also ends its
liveness. -/
def releaseCluster (s : ClusterSys) : ClusterSys :=
  { s with handle := ⟨s.handle.connected, false⟩ }

/-- A pool context is usable exactly when it is still open and its owning
cluster handle is still live (no pool context may outlive its handle). -/
def poolCtxValid (s : ClusterSys) (i : Nat) : Bool :=
  s.handle.live &&
    (match s.pools[i]? with
     | some p => p.isOpen
     | none => false)

/-- Modelled from the spec: any object operation through a pool context —
it fails fast with `InvalidHandle` when the context or its owning handle has
been invalidated, and never hangs (the model is a total function). -/
def poolOperation (s : ClusterSys) (i : Nat) : Except ErrCode Unit :=
  if poolCtxValid s i then .ok () else .error .invalidHandle

/-- Modelled from the spec: polling an outstanding completion through the
cluster — it fails fast with `InvalidHandle` once the owning handle has been
invalidated. -/
def completionGetValue (s : ClusterSys) (j : Nat) (m : Milestone) :
    Except ErrCode Int :=
  match s.completions[j]? with
  | some c => if s.handle.live then getReturnValue c m else .error .invalidHandle
  | none => .error .invalidHandle

/-- Modelled from the spec and the header's warning on `rados_config_t`: the
configuration context retrieved from a cluster handle has no independent
reference counting, so it is valid exactly as long as that handle is live. -/
def configValid (s : ClusterSys) : Bool :=
  s.handle.live

/-- Modelled from the spec: any use of the configuration context handle —
it fails with `InvalidHandle` as soon as the owning cluster handle is gone. -/
def configOperation (s : ClusterSys) : Except ErrCode Unit :=
  if configValid s then .ok () else .error .invalidHandle

/-- Modelled from the spec: one page fetch of the object-listing collaborator
(`listObjects(poolId, cursor, limit)`, spec section 6; the iterator handle is
`rados_list_ctx_t`): up to `limit` entries starting at the cursor, together
with a continuation cursor exactly when the page is full (more entries may
remain). A short page without a continuation cursor is end-of-sequence, not
an error. -/
def listObjectsPage (names : List String) (cursor limit : Nat) :
    List String × Option Nat :=
  let page := (names.drop cursor).take limit
  if page.length = limit then (page, some (cursor + limit)) else (page, none)

/-- Modelled from the spec: repeatedly calling `next(limit)` from a cursor
and concatenating the returned pages until a fetch comes back without a
continuation cursor. The fuel bounds the recursion; `names.length + 1` always
suffices for a positive limit. -/
def drainFrom (names : List String) (limit : Nat) : Nat → Nat → List String
  | _, 0 => []
  | cursor, fuel + 1 =>
      match listObjectsPage names cursor limit with
      | (page, some c) => page ++ drainFrom names limit c fuel
      | (page, none) => page

/-- The whole iteration: from cursor 0 with enough fuel. -/
def drainAll (names : List String) (limit : Nat) : List String :=
  drainFrom names limit 0 (names.length + 1)

/-- Modelled from the spec: a single unlimited enumeration of the scope (one
fetch whose limit exceeds the scope's size). -/
def unlimitedEnumeration (names : List String) : List String :=
  (listObjectsPage names 0 (names.length + 1)).1

/-- Plain sequential application of every write sub-operation in order,
ignoring failures (used to say "every sub-operation is applied"). -/
def applyAllWrites : List WriteSubOp → Option ObjState → Option ObjState
  | [], st => st
  | op :: rest, st =>
      match applyWriteSubOp op st with
      | .ok st' => applyAllWrites rest st'
      | .error _ => st

theorem getAssoc_setAssoc {α β : Type} [DecidableEq α]
    (l : List (α × β)) (k : α) (v : β) :
    getAssoc (setAssoc l k v) k = some v := by
  induction l with
  | nil => simp [getAssoc, setAssoc]
  | cons hd t ih =>
      obtain ⟨k', v'⟩ := hd
      by_cases hk : k' = k
      · simp [getAssoc, setAssoc, hk]
      · simp [getAssoc, setAssoc, hk, ih]

theorem execWriteAux_length (ops : List WriteSubOp) (st : Option ObjState) :
    (execWriteAux ops st).1.length = ops.length := by
  induction ops generalizing st with
  | nil => simp [execWriteAux]
  | cons op rest ih =>
      cases h : applyWriteSubOp op st with
      | ok st' => simp [execWriteAux, h, ih]
      | error e => simp [execWriteAux, h]

theorem firstNonZero_all_ok (cs : List ErrCode)
    (h : ∀ c ∈ cs, c = ErrCode.ok) : firstNonZero cs = ErrCode.ok := by
  induction cs with
  | nil => rfl
  | cons c t ih =>
      have hc := h c (List.mem_cons_self c t)
      simp [firstNonZero, hc]
      exact ih (fun x hx => h x (List.mem_cons_of_mem c hx))

theorem execWriteAux_overall (ops : List WriteSubOp) (st : Option ObjState) :
    (execWriteAux ops st).2.1
      = firstNonZero ((execWriteAux ops st).1.map StepResult.rval) := by
  induction ops generalizing st with
  | nil => simp [execWriteAux, firstNonZero]
  | cons op rest ih =>
      cases h : applyWriteSubOp op st with
      | ok st' =>
          simp [execWriteAux, h, okStep, firstNonZero]
          exact ih st'
      | error e =>
          simp [execWriteAux, h, firstNonZero]
          by_cases he : e = ErrCode.ok
          · subst he
            rw [if_pos rfl]
            exact (firstNonZero_all_ok _ (by
              intro c hc
              rw [List.eq_of_mem_replicate hc]
              rfl)).symm
          · rw [if_neg he]

/-- If the sequential run reports overall success, every step succeeded. -/
theorem execWriteAux_ok_all_ok (ops : List WriteSubOp) (st : Option ObjState)
    (h : (execWriteAux ops st).2.1 = ErrCode.ok) :
    ∀ r ∈ (execWriteAux ops st).1, r.rval = ErrCode.ok := by
  induction ops generalizing st with
  | nil => simp [execWriteAux]
  | cons op rest ih =>
      cases hop : applyWriteSubOp op st with
      | ok st' =>
          simp only [execWriteAux, hop] at h ⊢
          intro r hr
          rcases List.mem_cons.mp hr with h1 | h1
          · rw [h1]; rfl
          · exact ih st' h r h1
      | error e =>
          simp only [execWriteAux, hop] at h ⊢
          intro r hr
          rcases List.mem_cons.mp hr with h1 | h1
          · rw [h1]; simpa using h
          · rcases List.mem_map.mp h1 with ⟨_, _, hrr⟩
            rw [← hrr]; rfl

theorem execReadBatch_length (ops : List ReadSubOp) (st : Option ObjState) :
    (execReadBatch ops st).1.length = ops.length := by
  induction ops with
  | nil => simp [execReadBatch]
  | cons op rest ih =>
      cases h : applyReadSubOp op st with
      | ok out => simp [execReadBatch, h, ih]
      | error e => simp [execReadBatch, h]

theorem execReadBatch_overall (ops : List ReadSubOp) (st : Option ObjState) :
    (execReadBatch ops st).2
      = firstNonZero ((execReadBatch ops st).1.map StepResult.rval) := by
  induction ops with
  | nil => simp [execReadBatch, firstNonZero]
  | cons op rest ih =>
      cases h : applyReadSubOp op st with
      | ok out =>
          simp [execReadBatch, h, firstNonZero]
          exact ih
      | error e =>
          simp [execReadBatch, h, firstNonZero]
          by_cases he : e = ErrCode.ok
          · subst he
            rw [if_pos rfl]
            exact (firstNonZero_all_ok _ (by
              intro c hc
              rw [List.eq_of_mem_replicate hc]
              rfl)).symm
          · rw [if_neg he]

/-- Every executed slot of a read batch is exactly its sub-op evaluated
against the single snapshot state the batch was executed on. -/
theorem execReadBatch_snapshot (ops : List ReadSubOp) (st : Option ObjState) :
    ∀ (i : Nat) (op : ReadSubOp) (r : StepResult), ops[i]? = some op →
      (execReadBatch ops st).1[i]? = some r →
      r.executed = true → r = readStep op st := by
  induction ops with
  | nil => intro i op r h; simp at h
  | cons op0 rest ih =>
      intro i op r hop hr hexec
      cases h : applyReadSubOp op0 st with
      | ok out =>
          simp only [execReadBatch, h] at hr
          cases i with
          | zero =>
              simp at hop hr
              rw [← hr, ← hop]
              simp [readStep, h]
          | succ i' =>
              simp at hop hr
              exact ih i' op r hop hr hexec
      | error e =>
          simp only [execReadBatch, h] at hr
          cases i with
          | zero =>
              simp at hop hr
              rw [← hr, ← hop]
              simp [readStep, h]
          | succ i' =>
              simp at hr
              have hmem := List.getElem?_mem hr
              have := List.eq_of_mem_replicate hmem
              rw [this] at hexec
              exact absurd hexec (by simp [notExecuted])

/-- Once a read step fails, every later slot in the same batch is marked not
executed. -/
theorem execReadBatch_abort (ops : List ReadSubOp) (st : Option ObjState) :
    ∀ (i j : Nat) (ri rj : StepResult), i < j →
      (execReadBatch ops st).1[i]? = some ri → ri.rval ≠ ErrCode.ok →
      (execReadBatch ops st).1[j]? = some rj → rj.executed = false := by
  induction ops with
  | nil => intro i j ri rj hij hi hne hj; simp [execReadBatch] at hi
  | cons op0 rest ih =>
      intro i j ri rj hij hi hne hj
      cases h : applyReadSubOp op0 st with
      | ok out =>
          simp only [execReadBatch, h] at hi hj
          cases i with
          | zero =>
              simp at hi
              rw [← hi] at hne
              simp at hne
          | succ i' =>
              cases j with
              | zero => omega
              | succ j' =>
                  simp at hi hj
                  exact ih i' j' ri rj (by omega) hi hne hj
      | error e =>
          simp only [execReadBatch, h] at hi hj
          cases j with
          | zero => omega
          | succ j' =>
              simp at hj
              have hmem := List.getElem?_mem hj
              rw [List.eq_of_mem_replicate hmem]
              simp [notExecuted]

theorem writeOpAdd_ok_iff (w : WriteOp) (op : WriteSubOp) :
    (∃ w', writeOpAdd w op = .ok w')
      ↔ (w.bstate = .empty ∨ w.bstate = .building) := by
  constructor
  · rintro ⟨w', hw⟩
    cases h : w.bstate <;> simp [writeOpAdd, h] at hw ⊢
  · intro h
    rcases h with h | h <;>
      exact ⟨{ w with bstate := .building, subOps := w.subOps ++ [op] },
        by simp [writeOpAdd, h]⟩

theorem writeOpOperate_sets_executed (w : WriteOp) (st : Option ObjState)
    (w' : WriteOp) (st' : Option ObjState)
    (h : writeOpOperate w st = .ok (w', st')) : w'.bstate = .executed := by
  cases hb : w.bstate <;> simp [writeOpOperate, hb] at h
  · rw [← h.1]
  · rw [← h.1]

theorem logFor_map_tag (m : Milestone) (l : List Nat) :
    logFor m (l.map (fun f => (m, f))) = l := by
  induction l with
  | nil => rfl
  | cons a t ih => simp only [logFor, List.map_cons, List.filterMap_cons] at ih ⊢; simp [ih]

theorem logFor_map_tag_other (m m' : Milestone) (l : List Nat) (h : m' ≠ m) :
    logFor m (l.map (fun f => (m', f))) = [] := by
  induction l with
  | nil => rfl
  | cons a t ih => simp only [logFor, List.map_cons, List.filterMap_cons] at ih ⊢; simp [ih, h]

theorem mstate_setMState_same (c : Completion) (m : Milestone) (s : MilState) :
    mstate (setMState c m s) m = s := by
  cases m <;> rfl

theorem mstate_setMState_other (c : Completion) (m m' : Milestone)
    (s : MilState) (h : m' ≠ m) : mstate (setMState c m s) m' = mstate c m' := by
  cases m <;> cases m' <;> first | rfl | exact absurd rfl h

/-- Routing: what one milestone of a completion sees over an event run is
exactly the single-milestone machine run on the projected actions. -/
theorem runCompletion_proj (m : Milestone) :
    ∀ (es : List EngineEvent) (c : Completion),
      mstate (runCompletion c es).1 m
          = (runMil (mstate c m) (projEvents m es)).1
        ∧ logFor m (runCompletion c es).2
          = (runMil (mstate c m) (projEvents m es)).2 := by
  intro es
  induction es with
  | nil => intro c; simp [runCompletion, projEvents, runMil, logFor]
  | cons e rest ih =>
      intro c
      by_cases hm : eventMilestone e = m
      · have hproj : projEvents m (e :: rest)
            = toMilAction e :: projEvents m rest := by
          simp [projEvents, hm]
        rw [hproj]
        have hstep : mstate (stepCompletion c e).1 m
            = (stepMil (mstate c m) (toMilAction e)).1 := by
          simp [stepCompletion, hm, mstate_setMState_same]
        have hlog : logFor m (stepCompletion c e).2
            = (stepMil (mstate c m) (toMilAction e)).2 := by
          simp only [stepCompletion, hm]
          exact logFor_map_tag m _
        have hrest := ih (stepCompletion c e).1
        constructor
        · simp only [runCompletion, runMil]
          rw [hrest.1, hstep]
        · simp only [runCompletion, runMil, logFor, List.filterMap_append]
          have h1 := hrest.2
          simp only [logFor] at h1 hlog
          rw [h1, hstep, hlog]
      · have hproj : projEvents m (e :: rest) = projEvents m rest := by
          simp [projEvents, hm]
        rw [hproj]
        have hstep : mstate (stepCompletion c e).1 m = mstate c m := by
          simp [stepCompletion]
          exact mstate_setMState_other _ _ _ _ (fun hc => hm hc.symm)
        have hlog : logFor m (stepCompletion c e).2 = [] := by
          simp only [stepCompletion]
          exact logFor_map_tag_other m _ _ hm
        have hrest := ih (stepCompletion c e).1
        constructor
        · simp only [runCompletion]
          rw [hrest.1, hstep]
        · simp only [runCompletion, logFor, List.filterMap_append]
          have h1 := hrest.2
          simp only [logFor] at h1 hlog
          rw [h1, hstep, hlog, List.nil_append]

/-- A reached milestone stays reached with the same frozen code across any
single engine step. -/
theorem stepMil_preserves_reached (s : MilState) (a : MilAction)
    (h : s.reached = true) :
    (stepMil s a).1.reached = true ∧ (stepMil s a).1.code = s.code := by
  cases a with
  | arrive code =>
      simp [stepMil, applyMilAction, h]
      cases hcb : s.cb <;> simp [dispatchMil, h, hcb]
  | setCb f =>
      simp [stepMil, applyMilAction]
      cases f <;> simp [dispatchMil, h]

/-- A reached milestone stays reached with the same frozen code across any
run of engine actions. -/
theorem runMil_preserves_reached (as : List MilAction) :
    ∀ s : MilState, s.reached = true →
      (runMil s as).1.reached = true ∧ (runMil s as).1.code = s.code := by
  induction as with
  | nil => intro s h; exact ⟨h, rfl⟩
  | cons a rest ih =>
      intro s h
      have h1 := stepMil_preserves_reached s a h
      have h2 := ih (stepMil s a).1 h1.1
      simp only [runMil]
      exact ⟨h2.1, h2.2.trans h1.2⟩

/-- When the milestone has no registered callback and the actions register
none, no callback fires, none becomes registered, and the reached flag ends
up set exactly when it was already set or some arrival occurs. -/
theorem runMil_no_cb (as : List MilAction) :
    ∀ s : MilState, s.cb = none → as.all (fun a => ! a.isSetCb) = true →
      (runMil s as).2 = [] ∧ (runMil s as).1.cb = none ∧
        (runMil s as).1.reached = (s.reached || as.any MilAction.isArrive) := by
  induction as with
  | nil => intro s hcb _; simp [runMil, hcb]
  | cons a rest ih =>
      intro s hcb hall
      simp only [List.all_cons, Bool.and_eq_true] at hall
      cases a with
      | arrive code =>
          cases hr : s.reached with
          | false =>
              have hstep : stepMil s (.arrive code) = (⟨true, code, none⟩, []) := by
                simp [stepMil, applyMilAction, dispatchMil, hr, hcb]
              have hrec := ih ⟨true, code, none⟩ rfl hall.2
              simp only [runMil, hstep]
              refine ⟨by simpa using hrec.1, hrec.2.1, ?_⟩
              rw [hrec.2.2]
              simp [MilAction.isArrive, hr]
          | true =>
              have hstep : stepMil s (.arrive code) = (s, []) := by
                simp [stepMil, applyMilAction, dispatchMil, hr, hcb]
              have hrec := ih s hcb hall.2
              simp only [runMil, hstep]
              refine ⟨by simpa using hrec.1, hrec.2.1, ?_⟩
              rw [hrec.2.2]
              simp [MilAction.isArrive, hr]
      | setCb f =>
          simp [MilAction.isSetCb] at hall

/-- When the milestone is unreached with a callback registered and the
actions register none but include an arrival, the callback fires exactly
once. -/
theorem runMil_pending_fires (as : List MilAction) (s : MilState) (f : Nat)
    (hr : s.reached = false) (hcb : s.cb = some f)
    (hall : as.all (fun a => ! a.isSetCb) = true)
    (harr : as.any MilAction.isArrive = true) :
    (runMil s as).2 = [f] ∧ (runMil s as).1.cb = none := by
  cases as with
  | nil => simp at harr
  | cons a rest =>
      simp only [List.all_cons, Bool.and_eq_true] at hall
      cases a with
      | arrive code =>
          have hstep : stepMil s (.arrive code) = (⟨true, code, none⟩, [f]) := by
            simp [stepMil, applyMilAction, dispatchMil, hr, hcb]
          have hrest := runMil_no_cb rest ⟨true, code, none⟩ rfl hall.2
          simp only [runMil, hstep]
          exact ⟨by simp [hrest.1], hrest.2.1⟩
      | setCb g => simp [MilAction.isSetCb] at hall

/-- Splitting a run of engine actions at an append boundary. -/
theorem runMil_append (as bs : List MilAction) :
    ∀ s : MilState,
      runMil s (as ++ bs)
        = ((runMil (runMil s as).1 bs).1,
           (runMil s as).2 ++ (runMil (runMil s as).1 bs).2) := by
  induction as with
  | nil => intro s; simp [runMil]
  | cons a rest ih =>
      intro s
      simp only [List.cons_append, runMil, List.append_eq]
      rw [ih (stepMil s a).1]
      simp [List.append_assoc]

theorem projEvents_append (m : Milestone) (as bs : List EngineEvent) :
    projEvents m (as ++ bs) = projEvents m as ++ projEvents m bs := by
  simp [projEvents, List.filterMap_append]

theorem projEvents_cons (m : Milestone) (e : EngineEvent)
    (es : List EngineEvent) :
    projEvents m (e :: es)
      = if eventMilestone e = m then toMilAction e :: projEvents m es
        else projEvents m es := by
  simp only [projEvents, List.filterMap_cons]
  by_cases hm : eventMilestone e = m
  · rw [if_pos hm, if_pos hm]
  · rw [if_neg hm, if_neg hm]

theorem projEvents_all_not_setCb (m : Milestone) (es : List EngineEvent)
    (h : noSetCbFor m es = true) :
    (projEvents m es).all (fun a => ! a.isSetCb) = true := by
  induction es with
  | nil => rfl
  | cons e rest ih =>
      simp only [noSetCbFor, List.all_cons, Bool.and_eq_true] at h
      have hrest := ih h.2
      rw [projEvents_cons]
      by_cases hm : eventMilestone e = m
      · rw [if_pos hm, List.all_cons]
        cases e with
        | arrive m' code =>
            simp only [toMilAction, MilAction.isSetCb, Bool.not_false,
              Bool.true_and]
            exact hrest
        | setCb m' f =>
            have hm' : m' = m := hm
            have hne : m' ≠ m := of_decide_eq_true h.1
            exact absurd hm' hne
      · rw [if_neg hm]
        exact hrest

theorem projEvents_any_arrive (m : Milestone) (es : List EngineEvent) :
    (projEvents m es).any MilAction.isArrive = arriveFor m es := by
  induction es with
  | nil => rfl
  | cons e rest ih =>
      rw [projEvents_cons]
      simp only [arriveFor, List.any_cons] at ih ⊢
      by_cases hm : eventMilestone e = m
      · rw [if_pos hm, List.any_cons]
        cases e with
        | arrive m' code =>
            have hm' : m' = m := hm
            simp [toMilAction, MilAction.isArrive, hm']
        | setCb m' f =>
            simp only [toMilAction, MilAction.isArrive, Bool.false_or]
            exact ih
      · rw [if_neg hm]
        cases e with
        | arrive m' code =>
            have hm' : ¬ m' = m := hm
            simp only [hm', decide_False, Bool.false_or]
            exact ih
        | setCb m' f =>
            simp only [Bool.false_or]
            exact ih

theorem projEvents_silent (m : Milestone) (es : List EngineEvent)
    (hs : noSetCbFor m es = true) (ha : arriveFor m es = false) :
    projEvents m es = [] := by
  induction es with
  | nil => rfl
  | cons e rest ih =>
      simp only [noSetCbFor, List.all_cons, Bool.and_eq_true] at hs
      simp only [arriveFor, List.any_cons, Bool.or_eq_false_iff] at ha
      rw [projEvents_cons]
      have hm : ¬ eventMilestone e = m := by
        cases e with
        | arrive m' code =>
            intro hc
            have hm' : m' = m := hc
            have := ha.1
            rw [hm'] at this
            simp at this
        | setCb m' f =>
            intro hc
            exact absurd hc (of_decide_eq_true hs.1)
      rw [if_neg hm]
      exact ih hs.2 ha.2

theorem mstate_newCompletion (m : Milestone) :
    mstate newCompletion m = initMilState := by
  cases m <;> rfl

/-- From a fresh completion, if the trace registers callback `f` for
milestone `m` exactly once — before or after the milestone arrival — and the
milestone does arrive, then `f` is invoked exactly once for `m`. -/
theorem callback_fires_once (m : Milestone) (f : Nat)
    (pre post : List EngineEvent)
    (h1 : noSetCbFor m pre = true) (h2 : noSetCbFor m post = true)
    (h3 : (arriveFor m pre || arriveFor m post) = true) :
    logFor m (runCompletion newCompletion
      (pre ++ EngineEvent.setCb m (some f) :: post)).2 = [f] := by
  have hproj := (runCompletion_proj m
    (pre ++ EngineEvent.setCb m (some f) :: post) newCompletion).2
  rw [hproj, mstate_newCompletion]
  have hsplit : projEvents m (pre ++ EngineEvent.setCb m (some f) :: post)
      = projEvents m pre ++ MilAction.setCb (some f) :: projEvents m post := by
    rw [show EngineEvent.setCb m (some f) :: post
        = [EngineEvent.setCb m (some f)] ++ post from rfl,
      projEvents_append, projEvents_append]
    simp [projEvents, eventMilestone, toMilAction]
  rw [hsplit, runMil_append]
  have hpre := runMil_no_cb (projEvents m pre) initMilState rfl
    (projEvents_all_not_setCb m pre h1)
  set s1 := (runMil initMilState (projEvents m pre)).1 with hs1
  have hr1 : s1.reached = arriveFor m pre := by
    rw [hpre.2.2.trans]
    simp [initMilState, projEvents_any_arrive]
  rw [hpre.1, List.nil_append]
  cases harr : arriveFor m pre with
  | true =>
      have hsr : s1.reached = true := by rw [hr1, harr]
      have hstep : stepMil s1 (.setCb (some f)) = (⟨true, s1.code, none⟩, [f]) := by
        simp [stepMil, applyMilAction, dispatchMil, hsr]
      have hrest := runMil_no_cb (projEvents m post) ⟨true, s1.code, none⟩ rfl
        (projEvents_all_not_setCb m post h2)
      simp only [runMil, hstep]
      simp [hrest.1]
  | false =>
      have hsr : s1.reached = false := by rw [hr1, harr]
      have hpost : arriveFor m post = true := by
        rcases Bool.or_eq_true_iff.mp h3 with h | h
        · rw [harr] at h; exact absurd h (by simp)
        · exact h
      have hstep : stepMil s1 (.setCb (some f)) = (⟨false, s1.code, some f⟩, []) := by
        simp [stepMil, applyMilAction, dispatchMil, hsr]
      have hrest := runMil_pending_fires (projEvents m post)
        ⟨false, s1.code, some f⟩ f rfl rfl
        (projEvents_all_not_setCb m post h2)
        (by rw [projEvents_any_arrive]; exact hpost)
      simp only [runMil, hstep]
      simp [hrest.1]

/-- From a fresh completion, registering callback `f` for milestone `m` and
deregistering it (a null callback) before the milestone arrives means `f` is
never invoked for `m`, whatever arrivals follow. -/
theorem callback_dereg_silent (m : Milestone) (f : Nat)
    (mid post : List EngineEvent)
    (hmS : noSetCbFor m mid = true) (hmA : arriveFor m mid = false)
    (hpost : noSetCbFor m post = true) :
    logFor m (runCompletion newCompletion
      (EngineEvent.setCb m (some f) :: (mid ++ EngineEvent.setCb m none :: post))).2
      = [] := by
  have hproj := (runCompletion_proj m
    (EngineEvent.setCb m (some f) :: (mid ++ EngineEvent.setCb m none :: post))
    newCompletion).2
  rw [hproj, mstate_newCompletion]
  have hsplit : projEvents m
      (EngineEvent.setCb m (some f) :: (mid ++ EngineEvent.setCb m none :: post))
      = MilAction.setCb (some f) :: MilAction.setCb none :: projEvents m post := by
    rw [show EngineEvent.setCb m (some f) :: (mid ++ EngineEvent.setCb m none :: post)
        = [EngineEvent.setCb m (some f)] ++ mid
            ++ [EngineEvent.setCb m none] ++ post by simp,
      projEvents_append, projEvents_append, projEvents_append,
      projEvents_silent m mid hmS hmA]
    simp [projEvents, eventMilestone, toMilAction]
  rw [hsplit]
  have hstep1 : stepMil initMilState (.setCb (some f))
      = (⟨false, 0, some f⟩, []) := by
    simp [stepMil, applyMilAction, dispatchMil, initMilState]
  have hstep2 : stepMil (⟨false, 0, some f⟩ : MilState) (.setCb none)
      = (⟨false, 0, none⟩, []) := by
    simp [stepMil, applyMilAction, dispatchMil]
  have hrest := runMil_no_cb (projEvents m post) ⟨false, 0, none⟩ rfl
    (projEvents_all_not_setCb m post hpost)
  simp only [runMil, hstep1, hstep2]
  simp [hrest.1]

theorem unlimitedEnumeration_eq (names : List String) :
    unlimitedEnumeration names = names := by
  simp [unlimitedEnumeration, listObjectsPage]

theorem drainFrom_eq_drop (names : List String) (limit : Nat)
    (hpos : 0 < limit) :
    ∀ (fuel cursor : Nat), names.length - cursor < fuel →
      drainFrom names limit cursor fuel = names.drop cursor := by
  intro fuel
  induction fuel with
  | zero => intro cursor h; omega
  | succ fuel ih =>
      intro cursor h
      by_cases hfull : ((names.drop cursor).take limit).length = limit
      · have hlen : ((names.drop cursor).take limit).length
            = min limit (names.length - cursor) := by
          simp [List.length_take]
        have hle : limit ≤ names.length - cursor := by
          rw [hlen] at hfull
          omega
        have hrec := ih (cursor + limit) (by omega)
        simp only [drainFrom, listObjectsPage, if_pos hfull]
        rw [hrec]
        rw [show names.drop (cursor + limit)
            = ((names.drop cursor).drop limit) by rw [List.drop_drop]]
        exact List.take_append_drop limit (names.drop cursor)
      · have hlen : ((names.drop cursor).take limit).length
            = min limit (names.length - cursor) := by
          simp [List.length_take]
        have hlt : names.length - cursor < limit := by
          rw [hlen] at hfull
          omega
        simp only [drainFrom, listObjectsPage, if_neg hfull]
        exact List.take_of_length_le (by simp; omega)

theorem execWriteAux_ok_applies_all (ops : List WriteSubOp) (st : Option ObjState)
    (h : (execWriteAux ops st).2.1 = ErrCode.ok) :
    (execWriteAux ops st).2.2 = applyAllWrites ops st := by
  induction ops generalizing st with
  | nil => rfl
  | cons op rest ih =>
      cases hop : applyWriteSubOp op st with
      | ok st' =>
          simp only [execWriteAux, hop] at h ⊢
          simp only [applyAllWrites, hop]
          exact ih st' h
      | error e =>
          simp only [execWriteAux, hop] at h
          simp only [applyAllWrites, hop]
          simp only [execWriteAux, hop]

/-- C1: for every write batch executed against a single target object,
either every sub-operation is applied and visible together (on overall
success the final state is the sequential application of all sub-ops), or no
sub-operation is applied at all: if any sub-operation of the batch — a
failing compare/assert in particular — records a non-zero code, the target
object is left exactly as it was, so no sub-op earlier or later in the list
has any observable effect. -/
theorem write_batch_all_or_nothing (ops : List WriteSubOp)
    (st : Option ObjState) :
    ((execWriteBatch ops st).overall = ErrCode.ok →
        (execWriteBatch ops st).finalState = applyAllWrites ops st)
  ∧ ((∃ r ∈ (execWriteBatch ops st).steps, r.rval ≠ ErrCode.ok) →
        (execWriteBatch ops st).finalState = st) := by
  constructor
  · intro h
    have hov : (execWriteAux ops st).2.1 = ErrCode.ok := by
      by_cases hc : (execWriteAux ops st).2.1 = ErrCode.ok
      · exact hc
      · simp only [execWriteBatch, if_neg hc] at h
        exact absurd h hc
    simp only [execWriteBatch, if_pos hov]
    exact execWriteAux_ok_applies_all ops st hov
  · rintro ⟨r, hr, hne⟩
    have hsteps : (execWriteBatch ops st).steps = (execWriteAux ops st).1 := by
      by_cases hc : (execWriteAux ops st).2.1 = ErrCode.ok <;>
        simp [execWriteBatch, hc]
    rw [hsteps] at hr
    have hov : ¬ (execWriteAux ops st).2.1 = ErrCode.ok := by
      intro hok
      exact hne (execWriteAux_ok_all_ok ops st hok r hr)
    simp only [execWriteBatch, if_neg hov]

/-- C1 witness: a concrete three-step write batch whose middle compare fails
leaves the object untouched, and a fully succeeding batch applies every
step. -/
theorem write_batch_all_or_nothing_witness :
    (∃ r ∈ (execWriteBatch
        [WriteSubOp.setXattr "a" [1], WriteSubOp.cmpXattr "k" [2],
         WriteSubOp.setXattr "b" [3]] (some ⟨[], [], []⟩)).steps,
      r.rval ≠ ErrCode.ok)
  ∧ (execWriteBatch
        [WriteSubOp.setXattr "a" [1], WriteSubOp.cmpXattr "k" [2],
         WriteSubOp.setXattr "b" [3]] (some ⟨[], [], []⟩)).finalState
      = some ⟨[], [], []⟩
  ∧ (execWriteBatch [WriteSubOp.setXattr "a" [1]] (some ⟨[], [], []⟩)).overall
      = ErrCode.ok
  ∧ (execWriteBatch [WriteSubOp.setXattr "a" [1]] (some ⟨[], [], []⟩)).finalState
      = applyAllWrites [WriteSubOp.setXattr "a" [1]] (some ⟨[], [], []⟩) :=
  ⟨by decide,
   (write_batch_all_or_nothing _ _).2 (by decide),
   by decide,
   (write_batch_all_or_nothing _ _).1 (by decide)⟩

/-- C2: every executed sub-operation of a read batch observes the same single
point-in-time snapshot of the object (its result slot is its sub-op evaluated
against the one state the batch ran on), and once a sub-operation fails,
every later sub-operation of the same batch is aborted, i.e. not executed. -/
theorem read_batch_snapshot_and_abort (ops : List ReadSubOp)
    (st : Option ObjState) :
    (∀ (i : Nat) (op : ReadSubOp) (r : StepResult), ops[i]? = some op →
        (execReadBatch ops st).1[i]? = some r → r.executed = true →
        r = readStep op st)
  ∧ (∀ (i j : Nat) (ri rj : StepResult), i < j →
        (execReadBatch ops st).1[i]? = some ri → ri.rval ≠ ErrCode.ok →
        (execReadBatch ops st).1[j]? = some rj → rj.executed = false) :=
  ⟨execReadBatch_snapshot ops st, execReadBatch_abort ops st⟩

/-- C2 witness: in the concrete batch `[stat, cmpXattr "k" [1], read 0 5]` on
an object without xattr "k", the compare at index 1 fails and the read at
index 2 is aborted, while the stat at index 0 reads the snapshot. -/
theorem read_batch_snapshot_and_abort_witness :
    ((execReadBatch [ReadSubOp.stat, ReadSubOp.cmpXattr "k" [1],
        ReadSubOp.read 0 5] (some ⟨[1, 2, 3], [], []⟩)).1[1]?
      = some ⟨true, ErrCode.assertFailed, OutBuf.empty⟩)
  ∧ notExecuted.executed = false
  ∧ (⟨true, ErrCode.ok, OutBuf.statInfo 3⟩ : StepResult)
      = readStep ReadSubOp.stat (some ⟨[1, 2, 3], [], []⟩) :=
  ⟨by decide,
   (read_batch_snapshot_and_abort
      [ReadSubOp.stat, ReadSubOp.cmpXattr "k" [1], ReadSubOp.read 0 5]
      (some ⟨[1, 2, 3], [], []⟩)).2 1 2
      ⟨true, ErrCode.assertFailed, OutBuf.empty⟩ notExecuted
      (by decide) (by decide) (by decide) (by decide),
   (read_batch_snapshot_and_abort
      [ReadSubOp.stat, ReadSubOp.cmpXattr "k" [1], ReadSubOp.read 0 5]
      (some ⟨[1, 2, 3], [], []⟩)).1 0 ReadSubOp.stat
      ⟨true, ErrCode.ok, OutBuf.statInfo 3⟩
      (by decide) (by decide) (by decide)⟩

/-- C3: adding a sub-operation to a batch succeeds exactly while the batch is
in the `Empty` or `Building` state; an execute call consumes the batch (state
`Executed`), after which every further add fails with the
"batch already consumed" error and a second execute also fails with that
error, so a batch is consumed by exactly one execute call. -/
theorem batch_consumed_exactly_once (w : WriteOp) (op : WriteSubOp) :
    ((∃ w2, writeOpAdd w op = .ok w2)
        ↔ (w.bstate = BatchState.empty ∨ w.bstate = BatchState.building))
  ∧ (∀ (st : Option ObjState) (w2 : WriteOp) (st2 : Option ObjState),
        writeOpOperate w st = .ok (w2, st2) →
          w2.bstate = BatchState.executed
        ∧ writeOpAdd w2 op = .error .batchAlreadyConsumed
        ∧ ∀ st3, writeOpOperate w2 st3 = .error .batchAlreadyConsumed) := by
  constructor
  · exact writeOpAdd_ok_iff w op
  · intro st w2 st2 h
    have hb := writeOpOperate_sets_executed w st w2 st2 h
    refine ⟨hb, ?_, ?_⟩
    · simp [writeOpAdd, hb]
    · intro st3
      simp [writeOpOperate, hb]

/-- C3 witness: operating a fresh empty batch consumes it, and the consumed
batch refuses both further adds and a second operate. -/
theorem batch_consumed_exactly_once_witness :
    (writeOpOperate createWriteOp none
        = .ok (⟨BatchState.executed, [], [], ErrCode.ok⟩, none))
  ∧ (⟨BatchState.executed, [], [], ErrCode.ok⟩ : WriteOp).bstate
        = BatchState.executed
  ∧ writeOpAdd ⟨BatchState.executed, [], [], ErrCode.ok⟩ WriteSubOp.create
        = .error .batchAlreadyConsumed
  ∧ ∀ st3, writeOpOperate ⟨BatchState.executed, [], [], ErrCode.ok⟩ st3
        = .error .batchAlreadyConsumed :=
  ⟨by rfl,
   ((batch_consumed_exactly_once createWriteOp WriteSubOp.create).2 none
     ⟨BatchState.executed, [], [], ErrCode.ok⟩ none (by rfl)).1,
   ((batch_consumed_exactly_once createWriteOp WriteSubOp.create).2 none
     ⟨BatchState.executed, [], [], ErrCode.ok⟩ none (by rfl)).2.1,
   ((batch_consumed_exactly_once createWriteOp WriteSubOp.create).2 none
     ⟨BatchState.executed, [], [], ErrCode.ok⟩ none (by rfl)).2.2⟩

/-- C4: after executing a batch, there is one independently retrievable
result slot per sub-operation (as many slots as sub-ops, each with its own
code and output buffer), and the overall batch return code equals the
per-step code of the first sub-operation whose code is non-zero, or zero if
every sub-operation succeeded — for write batches and read batches alike. -/
theorem overall_is_first_nonzero (wops : List WriteSubOp)
    (rops : List ReadSubOp) (st : Option ObjState) :
    (execWriteBatch wops st).overall
        = firstNonZero ((execWriteBatch wops st).steps.map StepResult.rval)
  ∧ (execWriteBatch wops st).steps.length = wops.length
  ∧ (execReadBatch rops st).2
        = firstNonZero ((execReadBatch rops st).1.map StepResult.rval)
  ∧ (execReadBatch rops st).1.length = rops.length := by
  have hw : (execWriteBatch wops st).steps = (execWriteAux wops st).1
      ∧ (execWriteBatch wops st).overall = (execWriteAux wops st).2.1 := by
    by_cases hc : (execWriteAux wops st).2.1 = ErrCode.ok <;>
      simp [execWriteBatch, hc]
  refine ⟨?_, ?_, execReadBatch_overall rops st, execReadBatch_length rops st⟩
  · rw [hw.1, hw.2]
    exact execWriteAux_overall wops st
  · rw [hw.1]
    exact execWriteAux_length wops st

/-- C5: for every completion and each of its two milestones, calling
`getReturnValue` before the milestone is reached fails with the "not ready"
error; once the milestone is reached, `getReturnValue` returns the final
return code, and it keeps returning that same value after any further engine
events (stable/idempotent). -/
theorem get_return_value_milestones (c : Completion) (m : Milestone) :
    ((mstate c m).reached = false →
        getReturnValue c m = .error .notReady)
  ∧ ((mstate c m).reached = true →
        getReturnValue c m = .ok ((mstate c m).code)
      ∧ ∀ es : List EngineEvent,
          getReturnValue (runCompletion c es).1 m
            = .ok ((mstate c m).code)) := by
  constructor
  · intro h
    simp [getReturnValue, h]
  · intro h
    refine ⟨by simp [getReturnValue, h], ?_⟩
    intro es
    have hproj := (runCompletion_proj m es c).1
    have hp := runMil_preserves_reached (projEvents m es) (mstate c m) h
    simp [getReturnValue, hproj, hp.1, hp.2]

/-- C5 witness: on a completion whose ack milestone is reached with code 7,
`getReturnValue` yields 7 and still yields 7 after a further (ignored)
arrival event; on a fresh completion it fails with "not ready". -/
theorem get_return_value_milestones_witness :
    getReturnValue ⟨⟨true, 7, none⟩, initMilState⟩ Milestone.ack = .ok 7
  ∧ getReturnValue (runCompletion ⟨⟨true, 7, none⟩, initMilState⟩
        [EngineEvent.arrive Milestone.ack 9]).1 Milestone.ack = .ok 7
  ∧ getReturnValue newCompletion Milestone.complete = .error .notReady :=
  ⟨((get_return_value_milestones ⟨⟨true, 7, none⟩, initMilState⟩
      Milestone.ack).2 rfl).1,
   ((get_return_value_milestones ⟨⟨true, 7, none⟩, initMilState⟩
      Milestone.ack).2 rfl).2 [EngineEvent.arrive Milestone.ack 9],
   (get_return_value_milestones newCompletion Milestone.complete).1 rfl⟩

/-- C6: for every milestone of a completion, a callback registered exactly
once along a trace is invoked exactly once — `[f]`, never `[]` and never
twice — whether it is registered before the milestone arrival or only after
the milestone has already fired; and registering a null callback deregisters
the previously registered one, which is then never invoked. -/
theorem callback_exactly_once (m : Milestone) (f : Nat) :
    (∀ pre post : List EngineEvent,
        noSetCbFor m pre = true → noSetCbFor m post = true →
        (arriveFor m pre || arriveFor m post) = true →
        logFor m (runCompletion newCompletion
          (pre ++ EngineEvent.setCb m (some f) :: post)).2 = [f])
  ∧ (∀ mid post : List EngineEvent,
        noSetCbFor m mid = true → arriveFor m mid = false →
        noSetCbFor m post = true →
        logFor m (runCompletion newCompletion
          (EngineEvent.setCb m (some f)
            :: (mid ++ EngineEvent.setCb m none :: post))).2 = []) :=
  ⟨fun pre post h1 h2 h3 => callback_fires_once m f pre post h1 h2 h3,
   fun mid post h1 h2 h3 => callback_dereg_silent m f mid post h1 h2 h3⟩

/-- C6 witness: registering callback 7 after the ack milestone already fired
still invokes it exactly once; registering and then deregistering before the
arrival means it is never invoked. -/
theorem callback_exactly_once_witness :
    logFor Milestone.ack (runCompletion newCompletion
        [EngineEvent.arrive Milestone.ack 0,
         EngineEvent.setCb Milestone.ack (some 7)]).2 = [7]
  ∧ logFor Milestone.ack (runCompletion newCompletion
        [EngineEvent.setCb Milestone.ack (some 7),
         EngineEvent.setCb Milestone.ack none,
         EngineEvent.arrive Milestone.ack 0]).2 = [] :=
  ⟨(callback_exactly_once Milestone.ack 7).1
      [EngineEvent.arrive Milestone.ack 0] []
      (by decide) (by decide) (by decide),
   (callback_exactly_once Milestone.ack 7).2
      [] [EngineEvent.arrive Milestone.ack 0]
      (by decide) (by decide) (by decide)⟩

/-- C7: shutting down a cluster handle invalidates it together with every
descendant pool context and outstanding completion: afterwards no pool
context is valid, and operations through any pool context or completion of
that handle fail immediately with the "handle invalidated" error (the model
operations are total functions, so they never hang). -/
theorem shutdown_invalidates_descendants (s : ClusterSys) (i j : Nat)
    (m : Milestone) :
    poolCtxValid (shutdown s) i = false
  ∧ poolOperation (shutdown s) i = .error .invalidHandle
  ∧ completionGetValue (shutdown s) j m = .error .invalidHandle := by
  refine ⟨?_, ?_, ?_⟩
  · simp [shutdown, poolCtxValid]
  · simp [poolOperation, shutdown, poolCtxValid]
  · simp only [completionGetValue, shutdown]
    cases h : s.completions[j]? <;> simp

/-- C8: for every positive page limit, repeatedly fetching pages and
concatenating them yields exactly the single unlimited enumeration of the
scope — the very same list, hence no duplicates and no omissions — and a
fetch signals end-of-sequence (no continuation cursor) exactly when it
returns fewer than `limit` entries. -/
theorem iteration_pages_equal_enumeration (names : List String) (limit : Nat)
    (hpos : 0 < limit) :
    drainAll names limit = unlimitedEnumeration names
  ∧ drainAll names limit = names
  ∧ (∀ cursor, (listObjectsPage names cursor limit).2 = none
        ↔ (listObjectsPage names cursor limit).1.length < limit) := by
  have hdrain : drainAll names limit = names := by
    have := drainFrom_eq_drop names limit hpos (names.length + 1) 0 (by omega)
    simpa [drainAll] using this
  refine ⟨by rw [hdrain, unlimitedEnumeration_eq], hdrain, ?_⟩
  intro cursor
  have hlen : ((names.drop cursor).take limit).length
      = min limit (names.length - cursor) := by
    simp [List.length_take]
  by_cases hfull : ((names.drop cursor).take limit).length = limit
  · simp only [listObjectsPage, if_pos hfull]
    constructor
    · intro h; exact absurd h (by simp)
    · intro h; omega
  · simp only [listObjectsPage, if_neg hfull]
    constructor
    · intro _
      omega
    · intro _
      trivial

/-- C8 witness: draining `["a","b","c"]` two entries at a time returns the
unlimited enumeration exactly. -/
theorem iteration_pages_equal_enumeration_witness :
    drainAll ["a", "b", "c"] 2 = unlimitedEnumeration ["a", "b", "c"]
  ∧ drainAll ["a", "b", "c"] 2 = ["a", "b", "c"]
  ∧ (∀ cursor, (listObjectsPage ["a", "b", "c"] cursor 2).2 = none
        ↔ (listObjectsPage ["a", "b", "c"] cursor 2).1.length < 2) :=
  iteration_pages_equal_enumeration ["a", "b", "c"] 2 (by decide)

/-- C9: writing an extended attribute through a write batch and then reading
it back through a separate read batch on the same object returns exactly the
written value, byte for byte, for every object state, attribute name and
value. -/
theorem xattr_write_read_round_trip (st : Option ObjState) (k : String)
    (v : List Nat) :
    (execReadBatch [ReadSubOp.getXattr k]
        (execWriteBatch [WriteSubOp.setXattr k v] st).finalState).1
      = [⟨true, ErrCode.ok, OutBuf.bytes v⟩] := by
  have hw : (execWriteBatch [WriteSubOp.setXattr k v] st).finalState
      = some ⟨(ensureObj st).data, setAssoc (ensureObj st).xattrs k v,
              (ensureObj st).omap⟩ := by
    simp [execWriteBatch, execWriteAux, applyWriteSubOp, okStep]
  rw [hw]
  simp [execReadBatch, applyReadSubOp, getAssoc_setAssoc]

/-- C10: the configuration context retrieved from a cluster handle has no
independent reference counting: it is valid exactly as long as that handle is
live, and becomes invalid — its operations failing with the "handle
invalidated" error — as soon as the handle is shut down or released. -/
theorem config_ctx_tied_to_cluster (s : ClusterSys) :
    configValid s = s.handle.live
  ∧ configValid (shutdown s) = false
  ∧ configValid (releaseCluster s) = false
  ∧ configOperation (shutdown s) = .error .invalidHandle
  ∧ configOperation (releaseCluster s) = .error .invalidHandle
  ∧ (s.handle.live = true → configOperation s = .ok ()) := by
  refine ⟨rfl, rfl, rfl, by simp [configOperation, configValid, shutdown],
    by simp [configOperation, configValid, releaseCluster], ?_⟩
  intro h
  simp [configOperation, configValid, h]

/-- C10 witness: on a live handle the config context works; the theorem's
liveness hypothesis is discharged at a concrete system. -/
theorem config_ctx_tied_to_cluster_witness :
    (⟨⟨true, true⟩, [], []⟩ : ClusterSys).handle.live = true
  ∧ configOperation ⟨⟨true, true⟩, [], []⟩ = .ok ()
  ∧ configOperation (shutdown ⟨⟨true, true⟩, [], []⟩)
      = .error .invalidHandle :=
  ⟨rfl,
   (config_ctx_tied_to_cluster ⟨⟨true, true⟩, [], []⟩).2.2.2.2.2 rfl,
   (config_ctx_tied_to_cluster ⟨⟨true, true⟩, [], []⟩).2.2.2.1⟩

end RadosModel
